import Mathlib

/-!
Verification of the vault discovery and note-search engine of the
ObsidianFlowLauncher plugin (`main.py`), as a shallow embedding in Lean.

Conventions of the embedding:
* Python strings are modelled as `String` / `List Char`; all character-level
  operations (`str.replace`, `str.split`, slicing, `lower()`) are re-implemented
  on `List Char` with the exact Python semantics used by the source.
* Filesystem directory trees are modelled by the inductive `FsTree`; a file
  carries its name, modification time, content and two error flags (`readable`
  for `open`/`read` failures, `statOk` for `os.path.getmtime` failures).
* The flat file store used by the note-creation functions is an association
  list from paths (lists of path components) to file contents; `os.path.join`
  appends a component.
* `datetime.now().strftime` is modelled by an abstract `Clock` carrying a
  function from format strings to output strings.
* Machine times are modelled as `Int` (seconds); no floating point behaviour
  of `time.time()` is relevant to the claims.
* A directory whose `scandir` fails with a permission error is absent from the
  modelled tree: `os.walk` runs with its default `onerror=None`, which
  silently skips such a directory without yielding it or descending, so no
  `PermissionError` reaches the handlers in `find_vaults`/`search_notes`.
-/

set_option maxRecDepth 100000

/-! ### Python string primitives -/

/-- Python `s.startswith('.')`: true iff the first character is `'.'`. -/
def startsDot (s : String) : Bool :=
  match s.data with
  | [] => false
  | c :: _ => c = '.'

/-- Python `s.endswith(suf)` on character lists. -/
def pyEndsWith (s suf : String) : Bool :=
  suf.data.isSuffixOf s.data

/-- Python `pat in s` (substring containment) on character lists. -/
def listContainsSub (pat : List Char) : List Char → Bool
  | [] => pat.isEmpty
  | c :: rest => pat.isPrefixOf (c :: rest) || listContainsSub pat rest

/-- Python `s.lower()` (ASCII-adequate model using `Char.toLower`). -/
def pyLower (s : String) : String :=
  ⟨s.data.map Char.toLower⟩

/-- Python substring containment `pat in s` on strings. -/
def pyContains (s pat : String) : Bool :=
  listContainsSub pat.data s.data

/-- One fuel-indexed step list for Python `str.replace`: scan left to right,
replacing every non-overlapping occurrence of `pat` by `rep`.  The fuel is the
length of the scanned list, which suffices because each step consumes at least
one character of the input (the source never calls `replace` with an empty
pattern, where Python would behave differently). -/
def pyReplaceAux (pat rep : List Char) : Nat → List Char → List Char
  | 0, s => s
  | _ + 1, [] => []
  | fuel + 1, c :: rest =>
    if pat ≠ [] ∧ pat.isPrefixOf (c :: rest) then
      rep ++ pyReplaceAux pat rep fuel (List.drop pat.length (c :: rest))
    else
      c :: pyReplaceAux pat rep fuel rest

/-- Python `s.replace(pat, rep)`. -/
def pyReplace (s pat rep : String) : String :=
  ⟨pyReplaceAux pat.data rep.data s.data.length s.data⟩

/-! ### `obsidian_to_python_format` (main.py lines 461-483) -/

/-- The ordered token table of `obsidian_to_python_format`; the `windows` flag
models `platform.system() == 'Windows'` for the `D` token. -/
def format_mapping (windows : Bool) : List (String × String) :=
  [("YYYY", "%Y"),
   ("YY", "%y"),
   ("MMMM", "%B"),
   ("MMM", "%b"),
   ("MM", "%m"),
   ("DD", "%d"),
   ("D", if windows then "%#d" else "%-d"),
   ("dddd", "%A"),
   ("ddd", "%a"),
   ("ww", "%U"),
   ("w", "%W")]

/-- `obsidian_to_python_format`: fold the replacement table over the pattern in
table order. -/
def obsidian_to_python_format (windows : Bool) (obsidianFormat : String) : String :=
  (format_mapping windows).foldl
    (fun acc p => pyReplace acc p.1 p.2) obsidianFormat

/-- Claim C8: the token table substitutes `YYYY` before `YY` and `MMMM` before
`MMM` before `MM`, and translating the pattern `"YYYY-MM-DD"` yields exactly
`"%Y-%m-%d"`, with no residual token characters — no `M` or `D` remains, no
`YY` pair survives (the `YY` inside `YYYY` is not corrupted), and every
remaining `Y` is part of a substituted `%Y` directive — on both platform
variants of the table. -/
theorem C8_date_token_translation :
    ∀ windows : Bool,
      obsidian_to_python_format windows "YYYY-MM-DD" = "%Y-%m-%d"
      ∧ 'M' ∉ (obsidian_to_python_format windows "YYYY-MM-DD").data
      ∧ 'D' ∉ (obsidian_to_python_format windows "YYYY-MM-DD").data
      ∧ listContainsSub "YY".data
          (obsidian_to_python_format windows "YYYY-MM-DD").data = false
      ∧ (obsidian_to_python_format windows "YYYY-MM-DD").data.head? ≠ some 'Y'
      ∧ (∀ p ∈ (obsidian_to_python_format windows "YYYY-MM-DD").data.zip
              ((obsidian_to_python_format windows "YYYY-MM-DD").data.drop 1),
           p.2 = 'Y' → p.1 = '%')
      ∧ ((format_mapping windows).map Prod.fst).indexOf "YYYY"
          < ((format_mapping windows).map Prod.fst).indexOf "YY"
      ∧ ((format_mapping windows).map Prod.fst).indexOf "MMMM"
          < ((format_mapping windows).map Prod.fst).indexOf "MMM"
      ∧ ((format_mapping windows).map Prod.fst).indexOf "MMM"
          < ((format_mapping windows).map Prod.fst).indexOf "MM" := by
  intro windows
  cases windows <;> exact ⟨by decide, by decide, by decide, by decide, by decide,
    by decide, by decide, by decide, by decide⟩

/-! ### Filesystem model for the directory walks -/

/-- A file on disk: name, `os.path.getmtime` value, decoded text content,
and two error flags: `readable` models whether `open`/`read` succeeds, and
`statOk` whether `os.path.getmtime` succeeds. -/
structure MFile where
  fname : String
  mtime : Int
  content : String
  readable : Bool
  statOk : Bool

/-- A directory tree: directory name, subdirectories, files. -/
inductive FsTree : Type where
  | node : String → List FsTree → List MFile → FsTree

def FsTree.nameOf : FsTree → String
  | .node n _ _ => n

def FsTree.subdirs : FsTree → List FsTree
  | .node _ subs _ => subs

def FsTree.filesOf : FsTree → List MFile
  | .node _ _ fs => fs

/-- Resolve an absolute path (list of components) to the subtree it denotes,
starting from the filesystem root.  `none` models a non-existent path
(`os.path.exists` false), in which case `find_vaults` drops the search path
(main.py line 112). -/
def resolve : List String → FsTree → Option FsTree
  | [], t => some t
  | c :: rest, .node _ subs _ =>
    match subs.find? (fun d => d.nameOf = c) with
    | some t' => resolve rest t'
    | none => none

/-- The fixed deny-list of `find_vaults` (main.py lines 120-123). -/
def deny_list : List String :=
  ["node_modules", "venv", ".git", "__pycache__", "AppData", "Program Files",
   "Program Files (x86)", "Windows", "System32", "temp", "tmp", "$Recycle.Bin"]

/-- The pruning filter of `find_vaults` (main.py line 120): keep a child
directory iff its name does not start with `'.'` and is not deny-listed. -/
def keepDir (d : String) : Bool :=
  !startsDot d && !(deny_list.contains d)

/-! ### `get_vault_info` (main.py lines 242-278)

The model covers the note-counting walk; the read of the vault's `config`
file only binds a local that the claims never touch, and the blanket
`except` that zeroes the result can only fire on an I/O or JSON error of
that read, which the model's tree does not produce. -/

/-- Descending-by-mtime comparison used for `recent_notes.sort(key=lambda x:
x[1], reverse=True)`; Python's sort is stable, with `reverse=True` keeping
equal elements in their original relative order. -/
def mtimeGe (a b : List String × Int) : Prop := b.2 ≤ a.2

instance : DecidableRel mtimeGe := fun a b => Int.decLe b.2 a.2

mutual
/-- Per-directory step of the `get_vault_info` walk: count `.md` files and
collect `(path, mtime)` pairs for those whose stat succeeds; descend only into
non-hidden subdirectories (this walk has no deny-list). -/
def gviWalk (t : FsTree) (p : List String) : Nat × List (List String × Int) :=
  match t with
  | .node _ subs mfs =>
    let hereCount := (mfs.filter (fun f => pyEndsWith f.fname ".md")).length
    let herePairs := mfs.filterMap (fun f =>
      if pyEndsWith f.fname ".md" && f.statOk then some (p ++ [f.fname], f.mtime)
      else none)
    let rest := gviWalkList subs p
    (hereCount + rest.1, herePairs ++ rest.2)
termination_by structural t
def gviWalkList (ts : List FsTree) (p : List String) : Nat × List (List String × Int) :=
  match ts with
  | [] => (0, [])
  | t :: rest =>
    if startsDot t.nameOf then gviWalkList rest p
    else
      let r := gviWalk t (p ++ [t.nameOf])
      let r' := gviWalkList rest p
      (r.1 + r'.1, r.2 ++ r'.2)
termination_by structural ts
end

/-- `get_vault_info`: note count plus the five most recently modified notes
(stable descending sort by mtime, truncated to 5). -/
def get_vault_info (t : FsTree) (p : List String) : Nat × List (List String × Int) :=
  let w := gviWalk t p
  (w.1, (List.insertionSort mtimeGe w.2).take 5)

/-! ### `find_vaults` (main.py lines 47-167) -/

/-- One discovered vault record (main.py lines 141-149). -/
structure Vrec where
  vname : String
  path : List String
  config_path : List String
  note_count : Nat
  recent_notes : List (List String × Int)
  vault_id : Option String
  is_registered : Bool
deriving DecidableEq

/-- Build the record for a newly detected vault root: basename, path, marker
path, `get_vault_info` data, and the id of the first registered entry whose
path equals the root (main.py lines 128-149). -/
def mkVrec (reg : List (String × List String)) (t : FsTree) (p : List String) : Vrec :=
  let info := get_vault_info t p
  let vid := (reg.find? (fun e => e.2 = p)).map Prod.fst
  { vname := t.nameOf
    path := p
    config_path := p ++ [".obsidian"]
    note_count := info.1
    recent_notes := info.2
    vault_id := vid
    is_registered := vid.isSome }

mutual
/-- The per-directory body of the `find_vaults` walk over one search root.
Returns the accumulated vault list and an abort flag.

Faithful to the source: the hidden/deny-list pruning (line 120) removes
`.obsidian` from `dirs` before the detection check, so when a vault is
detected, line 156's `dirs.remove('.obsidian')` always raises `ValueError`
(`.obsidian` is no longer in the list); the `except Exception` at line 160
catches it and moves on to the next search path, so the walk of the current
search root stops right after recording the vault.  The abort flag models
that exception. -/
def fvWalk (reg : List (String × List String)) (t : FsTree) (p : List String)
    (acc : List Vrec) : List Vrec × Bool :=
  match t with
  | .node _ subs _ =>
    if subs.any (fun d => d.nameOf = ".obsidian") then
      -- vault detected: de-duplicated append (lines 151-153), then the
      -- ValueError from dirs.remove('.obsidian') aborts this search root
      (if acc.any (fun v => v.path = p) then acc else acc ++ [mkVrec reg t p], true)
    else
      fvWalkList reg subs p acc
termination_by structural t
/-- Walk the pruned children in order, threading the accumulator and stopping
as soon as a subtree aborts. -/
def fvWalkList (reg : List (String × List String)) (ts : List FsTree)
    (p : List String) (acc : List Vrec) : List Vrec × Bool :=
  match ts with
  | [] => (acc, false)
  | t :: rest =>
    if keepDir t.nameOf then
      match fvWalk reg t (p ++ [t.nameOf]) acc with
      | (acc', true) => (acc', true)
      | (acc', false) => fvWalkList reg rest p acc'
    else
      fvWalkList reg rest p acc
termination_by structural ts
end

/-- One iteration of the outer `for search_path in search_paths` loop: a
search path that does not resolve contributes nothing (non-existent paths are
filtered at line 112), otherwise its walk extends the accumulator, an aborted
walk only ending that search path's contribution (lines 158-161). -/
def fvStep (fs : FsTree) (reg : List (String × List String))
    (acc : List Vrec) (sp : List String) : List Vrec :=
  match resolve sp fs with
  | none => acc
  | some t => (fvWalk reg t sp acc).1

/-- `find_vaults`: walk every (existing) search path in turn against the
global filesystem tree, accumulating de-duplicated vault records. -/
def find_vaults (fs : FsTree) (searchPaths : List (List String))
    (reg : List (String × List String)) : List Vrec :=
  searchPaths.foldl (fvStep fs reg) []

/-! ### Claim C1 -/

/-- A search root `R` with two sibling vault roots `A` and `B`, each directly
containing the marker subdirectory `.obsidian`. -/
def fsC1 : FsTree :=
  .node ""
    [.node "R"
      [.node "A" [.node ".obsidian" [] []] [],
       .node "B" [.node ".obsidian" [] []] []]
      []]
    []

/-- Claim C1, evaluated at the failing input: the tree under search root
`["R"]` contains two sibling vault roots `A` and `B` (each directly contains
`.obsidian`), yet `find_vaults` records only `A`.  Detecting `A` executes
`dirs.remove('.obsidian')` after the hidden-directory filter has already
removed `.obsidian` from `dirs`, so a `ValueError` is raised and the
`except Exception` clause abandons the rest of the walk of that search root:
`B` is never recorded. -/
theorem C1_code_eval :
    ((resolve ["R", "A"] fsC1).map
        (fun t => t.subdirs.any (fun d => d.nameOf = ".obsidian")) = some true)
    ∧ ((resolve ["R", "B"] fsC1).map
        (fun t => t.subdirs.any (fun d => d.nameOf = ".obsidian")) = some true)
    ∧ (find_vaults fsC1 [["R"]] []).map Vrec.path = [["R", "A"]]
    ∧ (∀ v ∈ find_vaults fsC1 [["R"]] [], v.path ≠ ["R", "B"]) := by
  exact ⟨by decide, by decide, by decide, by decide⟩

/-! ### `search_notes` (main.py lines 280-334) -/

/-- Python `content.split('\n')` on character lists: splitting the empty
string yields `[[]]` (one empty line), never the empty list. -/
def splitLines : List Char → List (List Char)
  | [] => [[]]
  | c :: rest =>
    if c = '\n' then [] :: splitLines rest
    else
      match splitLines rest with
      | [] => [[c]]
      | l :: ls => (c :: l) :: ls

/-- The preview computation of `search_notes` (main.py lines 311-315),
including the `if lines else "No preview available"` branch, which is
unreachable because Python's `split` never returns an empty list. -/
def previewOf (content : String) : String :=
  let lines := splitLines content.data
  let preview :=
    match lines with
    | [] => "No preview available".data
    | l :: _ => l
  if preview.length > 100 then ⟨preview.take 100 ++ "...".data⟩ else ⟨preview⟩

/-- One search hit (main.py lines 317-325). -/
structure Hit where
  file : String
  path : List String
  rel_path : List String
  title : String
  preview : String
  date : String
  mtime : Int
deriving DecidableEq

/-- The per-file body of the `search_notes` walk: a `.md` file qualifies if
its open/read succeeds, the lowered query occurs in the lowered title
(filename without the 3-character extension) or in the lowered content, and
`os.path.getmtime` succeeds; any per-file failure skips just that file
(lines 290-327). -/
def mkHit (fmtDate : Int → String) (q : String) (vault rel : List String)
    (f : MFile) : Option Hit :=
  if pyEndsWith f.fname ".md" then
    if f.readable then
      let title : String := ⟨f.fname.data.take (f.fname.data.length - 3)⟩
      let titleM := pyContains (pyLower title) (pyLower q)
      let contentM := pyContains (pyLower f.content) (pyLower q)
      if (titleM || contentM) && f.statOk then
        some { file := f.fname
               path := vault ++ rel ++ [f.fname]
               rel_path := rel ++ [f.fname]
               title := title
               preview := previewOf f.content
               date := fmtDate f.mtime
               mtime := f.mtime }
      else none
    else none
  else none

mutual
/-- The `search_notes` walk: visit the current directory's files in order,
then descend into non-hidden subdirectories (the filter at line 288 also
names `.obsidian` explicitly, which the hidden check subsumes). -/
def snWalk (fmtDate : Int → String) (q : String) (vault : List String)
    (t : FsTree) (rel : List String) : List Hit :=
  match t with
  | .node _ subs mfs =>
    mfs.filterMap (mkHit fmtDate q vault rel) ++ snWalkList fmtDate q vault subs rel
termination_by structural t
def snWalkList (fmtDate : Int → String) (q : String) (vault : List String)
    (ts : List FsTree) (rel : List String) : List Hit :=
  match ts with
  | [] => []
  | t :: rest =>
    if t.nameOf ≠ ".obsidian" && !startsDot t.nameOf then
      snWalk fmtDate q vault t (rel ++ [t.nameOf]) ++ snWalkList fmtDate q vault rest rel
    else
      snWalkList fmtDate q vault rest rel
termination_by structural ts
end

/-- Rank of a hit (line 330): 0 if the lowered query occurs in the lowered
stored title, else 1. -/
def rankOf (q : String) (h : Hit) : Nat :=
  if pyContains (pyLower h.title) (pyLower q) then 0 else 1

/-- The sort key of line 330: `(rank, -mtime)`. -/
def hitKey (q : String) (h : Hit) : Nat × Int :=
  (rankOf q h, -h.mtime)

/-- Lexicographic order on sort keys, as Python compares tuples. -/
def keyLe (x y : Nat × Int) : Prop :=
  x.1 < y.1 ∨ (x.1 = y.1 ∧ x.2 ≤ y.2)

instance : DecidableRel keyLe :=
  fun x y => inferInstanceAs (Decidable (x.1 < y.1 ∨ (x.1 = y.1 ∧ x.2 ≤ y.2)))

/-- Hit comparison by sort key. -/
def hitRel (q : String) (a b : Hit) : Prop :=
  keyLe (hitKey q a) (hitKey q b)

instance (q : String) : DecidableRel (hitRel q) :=
  fun a b => inferInstanceAs (Decidable (keyLe (hitKey q a) (hitKey q b)))

instance (q : String) : IsTotal Hit (hitRel q) :=
  ⟨fun a b => by unfold hitRel keyLe; omega⟩

instance (q : String) : IsTrans Hit (hitRel q) :=
  ⟨fun a b c => by unfold hitRel keyLe; omega⟩

/-- `search_notes`: collect qualifying hits in walk order, sort stably by
`(rank, -mtime)` — Python's `list.sort` is stable, and `insertionSort` is the
canonical stable sort — and only then truncate to `limit` (lines 329-331).
The blanket `except` returning `[]` at lines 333-334 can only fire on a
failure outside the per-file handler, which the model's total walk does not
produce. -/
def search_notes (fmtDate : Int → String) (t : FsTree) (vault : List String)
    (q : String) (limit : Nat) : List Hit :=
  (List.insertionSort (hitRel q) (snWalk fmtDate q vault t [])).take limit

/-! ### Stability of the hit sort -/

theorem orderedInsert_filter_key_eq (q : String) (k : Nat × Int) (x : Hit)
    (hx : hitKey q x = k) :
    ∀ s : List Hit,
      (List.orderedInsert (hitRel q) x s).filter (fun h => decide (hitKey q h = k))
        = x :: s.filter (fun h => decide (hitKey q h = k))
  | [] => by simp [hx]
  | y :: ys => by
    by_cases hr : hitRel q x y
    · rw [List.orderedInsert, if_pos hr]
      simp [hx]
    · rw [List.orderedInsert, if_neg hr]
      have hne : hitKey q y ≠ k := by
        intro he
        exact hr (by rw [hitRel, hx, he]; exact Or.inr ⟨rfl, le_refl _⟩)
      rw [List.filter_cons, List.filter_cons]
      simp only [decide_eq_true_eq]
      rw [if_neg (by simpa using hne), if_neg (by simpa using hne)]
      exact orderedInsert_filter_key_eq q k x hx ys

theorem orderedInsert_filter_key_ne (q : String) (k : Nat × Int) (x : Hit)
    (hx : hitKey q x ≠ k) :
    ∀ s : List Hit,
      (List.orderedInsert (hitRel q) x s).filter (fun h => decide (hitKey q h = k))
        = s.filter (fun h => decide (hitKey q h = k))
  | [] => by simp [hx]
  | y :: ys => by
    by_cases hr : hitRel q x y
    · rw [List.orderedInsert, if_pos hr]
      simp [hx]
    · rw [List.orderedInsert, if_neg hr]
      rw [List.filter_cons, List.filter_cons]
      by_cases hy : hitKey q y = k
      · simp only [decide_eq_true_eq]
        rw [if_pos hy, if_pos hy]
        rw [orderedInsert_filter_key_ne q k x hx ys]
      · simp only [decide_eq_true_eq]
        rw [if_neg hy, if_neg hy]
        exact orderedInsert_filter_key_ne q k x hx ys

/-- Stability of the hit sort: for every key value, the sorted list restricted
to that key is the input restricted to that key, in the original order. -/
theorem insertionSort_filter_key (q : String) (k : Nat × Int) :
    ∀ l : List Hit,
      (List.insertionSort (hitRel q) l).filter (fun h => decide (hitKey q h = k))
        = l.filter (fun h => decide (hitKey q h = k))
  | [] => rfl
  | x :: l => by
    rw [List.insertionSort]
    by_cases hx : hitKey q x = k
    · rw [orderedInsert_filter_key_eq q k x hx (List.insertionSort (hitRel q) l),
        insertionSort_filter_key q k l, List.filter_cons]
      simp [hx]
    · rw [orderedInsert_filter_key_ne q k x hx (List.insertionSort (hitRel q) l),
        insertionSort_filter_key q k l, List.filter_cons]
      simp [hx]

/-! ### Claims C2 and C3 -/

/-- A fixed date formatter for concrete evaluations (the claims are
independent of the calendar rendering of mtimes). -/
def fmt0 : Int → String := fun _ => ""

/-- A vault containing a single empty note whose title matches the query. -/
def fsC2 : FsTree :=
  .node "v" [] [⟨"hello.md", 5, "", true, true⟩]

/-- Claim C2, evaluated at the failing input: for an empty file the code's
preview is the empty string, not the fixed placeholder, because
`''.split('\n')` is `['']` (truthy), so the `"No preview available"` branch
can never run; the two truncation behaviours of the claim do hold. -/
theorem C2_preview_eval :
    (search_notes fmt0 fsC2 ["v"] "hello" 10).map Hit.preview = [""]
    ∧ ("" : String) ≠ "No preview available"
    ∧ previewOf ⟨List.replicate 150 'a'⟩ = ⟨List.replicate 100 'a' ++ "...".data⟩
    ∧ previewOf ⟨List.replicate 50 'a'⟩ = ⟨List.replicate 50 'a'⟩
    ∧ previewOf "" = "" := by
  exact ⟨by decide, by decide, by decide, by decide, by decide⟩

/-- Claim C3: `search_notes` returns the stable `(rank, -mtime)` sort of the
full qualifying set, truncated to `limit` only after sorting: the sorted list
is a permutation of the walk-ordered qualifying hits, is sorted by the key
(title match = rank 0 before content-only match = rank 1, then mtime
descending), preserves the original order inside every key class (stability),
and the returned list has length at most `limit` with ranks monotone — a
title-matching note always precedes a content-only match. -/
theorem C3_search_ranking :
    ∀ (fmtDate : Int → String) (t : FsTree) (vault : List String)
      (q : String) (limit : Nat),
      search_notes fmtDate t vault q limit
          = (List.insertionSort (hitRel q) (snWalk fmtDate q vault t [])).take limit
      ∧ List.Perm (List.insertionSort (hitRel q) (snWalk fmtDate q vault t []))
          (snWalk fmtDate q vault t [])
      ∧ (List.insertionSort (hitRel q) (snWalk fmtDate q vault t [])).Sorted (hitRel q)
      ∧ (∀ k : Nat × Int,
          (List.insertionSort (hitRel q) (snWalk fmtDate q vault t [])).filter
              (fun h => decide (hitKey q h = k))
            = (snWalk fmtDate q vault t []).filter (fun h => decide (hitKey q h = k)))
      ∧ (search_notes fmtDate t vault q limit).length ≤ limit
      ∧ (search_notes fmtDate t vault q limit).Pairwise
          (fun a b => rankOf q a ≤ rankOf q b) := by
  intro fmtDate t vault q limit
  refine ⟨rfl, List.perm_insertionSort _ _, List.sorted_insertionSort _ _,
    fun k => insertionSort_filter_key q k _, ?_, ?_⟩
  · exact List.length_take_le _ _
  · have hs : (List.insertionSort (hitRel q) (snWalk fmtDate q vault t [])).Pairwise
        (hitRel q) := List.sorted_insertionSort _ _
    have ht := hs.sublist (List.take_sublist limit _)
    refine ht.imp ?_
    intro a b hab
    rcases hab with h | ⟨h, _⟩
    · exact Nat.le_of_lt h
    · exact Nat.le_of_eq h

/-! ### Flat file store for the note-creation functions -/

/-- Read a file: `os.path.exists` + `open(...).read()` on the flat store. -/
def fsGet : List (List String × String) → List String → Option String
  | [], _ => none
  | (q, c) :: rest, p => if q = p then some c else fsGet rest p

/-- Write a file (`open(path, 'w')` followed by writes). -/
def fsSet (fs : List (List String × String)) (p : List String) (c : String) :
    List (List String × String) :=
  (p, c) :: fs

/-- `os.path.relpath(p, base)` for the only shape the source produces (the
target always sits below the vault root). -/
def relPathFrom (base p : List String) : List String :=
  if base.isPrefixOf p then p.drop base.length else p

/-- `datetime.now().strftime` as an abstract clock. -/
structure Clock where
  strftime : String → String

/-- The parsed `daily-notes.json` configuration (absent keys are `none`;
a missing or unparsable file is `none` at the `Option DailyCfg` level,
cf. `get_daily_notes_config`, lines 485-494). -/
structure DailyCfg where
  format : Option String
  folder : Option (List String)
  template : Option String

/-! ### `process_template` (main.py lines 416-431) -/

/-- The fixed template variable table (lines 419-425). -/
def template_variables (clock : Clock) (title : String) : List (String × String) :=
  [("\x7b\x7btitle\x7d\x7d", title),
   ("\x7b\x7bdate\x7d\x7d", clock.strftime "%Y-%m-%d"),
   ("\x7b\x7btime\x7d\x7d", clock.strftime "%H:%M"),
   ("\x7b\x7bdate:YYYY-MM-DD\x7d\x7d", clock.strftime "%Y-%m-%d"),
   ("\x7b\x7bdate:MMM DD YYYY\x7d\x7d", clock.strftime "%b %d %Y")]

/-- `process_template`: sequential replacement of each variable. -/
def process_template (clock : Clock) (templateContent title : String) : String :=
  (template_variables clock title).foldl
    (fun acc v => pyReplace acc v.1 v.2) templateContent

/-- The default daily-note body (lines 400-404). -/
def default_daily_content (clock : Clock) (title : String) : String :=
  "# " ++ title ++ "\n\n" ++ "Date: " ++ clock.strftime "%Y-%m-%d %H:%M:%S"
    ++ "\n\n" ++ "## Notes\n\n" ++ "- \n\n"

/-! ### `create_daily_note_with_template` (main.py lines 368-414) -/

/-- `create_daily_note_with_template`.  The single `ioOk` flag models whether
the I/O inside the `try` of lines 377-414 (template read, file write)
succeeds; on failure the `except` returns `(None, None)`, modelled as
`(fs, none)` with the store unchanged (nothing persisted). -/
def create_daily_note_with_template (clock : Clock) (ioOk : Bool)
    (fs : List (List String × String)) (vault daily : List String)
    (title : String) (cfg : Option DailyCfg) :
    List (List String × String) × Option (List String × List String) :=
  let full := daily ++ [title ++ ".md"]
  if (fsGet fs full).isSome then
    (fs, some (full, relPathFrom vault full))
  else if !ioOk then
    (fs, none)
  else
    let fromTemplate : String :=
      match cfg with
      | some c =>
        match c.template with
        | some tref =>
          match List.findSome? (fun tp => fsGet fs tp)
              [vault ++ [tref ++ ".md"], vault ++ [tref]] with
          | some tcontent => process_template clock tcontent title
          | none => ""
        | none => ""
      | none => ""
    let content :=
      if fromTemplate = "" then default_daily_content clock title else fromTemplate
    (fsSet fs full content, some (full, relPathFrom vault full))

/-! ### `create_daily_note` (main.py lines 336-366) -/

/-- The date-derived default title of `create_daily_note` (lines 341-349). -/
def daily_title (clock : Clock) (windows : Bool) (cfg : Option DailyCfg) : String :=
  match cfg with
  | some c =>
    match c.format with
    | some f => clock.strftime (obsidian_to_python_format windows f)
    | none => clock.strftime "%Y-%m-%d"
  | none => clock.strftime "%Y-%m-%d"

/-- The configured daily-notes folder (lines 351-355). -/
def daily_folder (cfg : Option DailyCfg) : List String :=
  match cfg with
  | some c => c.folder.getD ["Daily"]
  | none => ["Daily"]

/-- `create_daily_note`: resolve the title — `if not title:` re-derives it
from the configured date pattern for both `None` and the empty string (lines
341-349) — resolve the folder, run `os.makedirs`, then delegate.  `mkdirOk`
models whether `os.makedirs` succeeds: that call (line 360) sits outside
every `try`/`except` in `create_daily_note`, so its failure propagates as a
raised exception, modelled by `Except.error ()`.  `sort_daily_notes_folder`
(line 363) only reads the folder and sorts a local list, with no filesystem
effect (lines 496-522). -/
def create_daily_note (clock : Clock) (windows mkdirOk ioOk : Bool)
    (fs : List (List String × String)) (vault : List String)
    (cfg : Option DailyCfg) (titleOpt : Option String) :
    Except Unit (List (List String × String) × Option (List String × List String)) :=
  let title :=
    match titleOpt with
    | some t => if t = "" then daily_title clock windows cfg else t
    | none => daily_title clock windows cfg
  let daily := vault ++ daily_folder cfg
  if mkdirOk then
    Except.ok (create_daily_note_with_template clock ioOk fs vault daily title cfg)
  else
    Except.error ()

/-! ### `create_new_note` (main.py lines 524-546) -/

/-- `re.sub(r'[<>:"/\\|?*]', '_', title)`. -/
def sanitize_filename (t : String) : String :=
  ⟨t.data.map (fun c =>
    if c ∈ ['<', '>', ':', '"', '/', '\\', '|', '?', '*'] then '_' else c)⟩

/-- The note body written by `create_new_note` (lines 537-541). -/
def new_note_content (clock : Clock) (title : String) : String :=
  "# " ++ title ++ "\n\n" ++ "Created: " ++ clock.strftime "%Y-%m-%d %H:%M:%S"
    ++ "\n\n" ++ "## Content\n\n" ++ "- \n\n"

/-- The `while os.path.exists(full_path)` probing loop of lines 531-534:
starting from `filename.md` with counter 1, move to `filename 1.md`,
`filename 2.md`, … until a non-existent path is found.  The fuel
`fs.length + 1` covers the Python loop, which terminates because the finite
store cannot occupy every candidate; `none` is a model artifact for exhausted
fuel. -/
def findFreePath (fs : List (List String × String)) (vault : List String)
    (filename : String) : Nat → List String → Nat → Option (List String)
  | 0, _, _ => none
  | fuel + 1, cur, counter =>
    if (fsGet fs cur).isSome then
      findFreePath fs vault filename fuel
        (vault ++ [filename ++ " " ++ Nat.repr counter ++ ".md"]) (counter + 1)
    else some cur

/-- `create_new_note`: sanitize the title, probe for a free name, write the
default body; a write failure returns `(None, None)` via the `try` of lines
536-546. -/
def create_new_note (clock : Clock) (ioOk : Bool)
    (fs : List (List String × String)) (vault : List String) (title : String) :
    List (List String × String) × Option (List String × List String) :=
  let filename := sanitize_filename title
  match findFreePath fs vault filename (fs.length + 1)
      (vault ++ [filename ++ ".md"]) 1 with
  | none => (fs, none)
  | some full =>
    if ioOk then
      (fsSet fs full (new_note_content clock title),
       some (full, relPathFrom vault full))
    else (fs, none)

/-! ### Structural lemmas about the `find_vaults` walk -/

mutual
/-- Every record produced by a walk step was either already accumulated or
lives at `p ++ q` where every component of `q` passed the pruning filter. -/
theorem fvWalk_mem (reg : List (String × List String)) :
    ∀ (t : FsTree) (p : List String) (acc : List Vrec),
      ∀ v ∈ (fvWalk reg t p acc).1,
        v ∈ acc ∨ ∃ q, v.path = p ++ q ∧ ∀ c ∈ q, keepDir c = true
  | .node nm subs mfs, p, acc => by
    intro v hv
    rw [fvWalk] at hv
    by_cases hm : subs.any (fun d => d.nameOf = ".obsidian")
    · rw [if_pos hm] at hv
      by_cases hd : acc.any (fun v => v.path = p)
      · rw [if_pos hd] at hv
        exact Or.inl hv
      · rw [if_neg hd] at hv
        rcases List.mem_append.mp hv with h | h
        · exact Or.inl h
        · rcases List.mem_singleton.mp h with rfl
          exact Or.inr ⟨[], by simp [mkVrec]⟩
    · rw [if_neg hm] at hv
      exact fvWalkList_mem reg subs p acc v hv

theorem fvWalkList_mem (reg : List (String × List String)) :
    ∀ (ts : List FsTree) (p : List String) (acc : List Vrec),
      ∀ v ∈ (fvWalkList reg ts p acc).1,
        v ∈ acc ∨ ∃ q, v.path = p ++ q ∧ ∀ c ∈ q, keepDir c = true
  | [], p, acc => by
    intro v hv
    rw [fvWalkList] at hv
    exact Or.inl hv
  | t :: rest, p, acc => by
    intro v hv
    rw [fvWalkList] at hv
    by_cases hk : keepDir t.nameOf
    · rw [if_pos hk] at hv
      rcases hw : fvWalk reg t (p ++ [t.nameOf]) acc with ⟨acc', ab⟩
      rw [hw] at hv
      have step : ∀ w ∈ acc', w ∈ acc ∨ ∃ q, w.path = p ++ q ∧ ∀ c ∈ q, keepDir c = true := by
        intro w hw'
        have := fvWalk_mem reg t (p ++ [t.nameOf]) acc w (by rw [hw]; exact hw')
        rcases this with h | ⟨q, hq, hcl⟩
        · exact Or.inl h
        · refine Or.inr ⟨t.nameOf :: q, by simpa using hq, ?_⟩
          intro c hc
          rcases List.mem_cons.mp hc with rfl | hc
          · exact hk
          · exact hcl c hc
      cases ab with
      | true => exact step v hv
      | false =>
        rcases fvWalkList_mem reg rest p acc' v hv with h | h
        · exact step v h
        · exact Or.inr h
    · rw [if_neg hk] at hv
      exact fvWalkList_mem reg rest p acc v hv
end

mutual
/-- The walk only appends: existing accumulated records stay. -/
theorem fvWalk_mem_of_acc (reg : List (String × List String)) :
    ∀ (t : FsTree) (p : List String) (acc : List Vrec),
      ∀ v ∈ acc, v ∈ (fvWalk reg t p acc).1
  | .node nm subs mfs, p, acc => by
    intro v hv
    rw [fvWalk]
    by_cases hm : subs.any (fun d => d.nameOf = ".obsidian")
    · rw [if_pos hm]
      by_cases hd : acc.any (fun v => v.path = p)
      · rw [if_pos hd]; exact hv
      · rw [if_neg hd]; exact List.mem_append_left _ hv
    · rw [if_neg hm]
      exact fvWalkList_mem_of_acc reg subs p acc v hv

theorem fvWalkList_mem_of_acc (reg : List (String × List String)) :
    ∀ (ts : List FsTree) (p : List String) (acc : List Vrec),
      ∀ v ∈ acc, v ∈ (fvWalkList reg ts p acc).1
  | [], p, acc => by
    intro v hv
    rw [fvWalkList]
    exact hv
  | t :: rest, p, acc => by
    intro v hv
    rw [fvWalkList]
    by_cases hk : keepDir t.nameOf
    · rw [if_pos hk]
      rcases hw : fvWalk reg t (p ++ [t.nameOf]) acc with ⟨acc', ab⟩
      have hv' : v ∈ acc' := by
        have := fvWalk_mem_of_acc reg t (p ++ [t.nameOf]) acc v hv
        rwa [hw] at this
      cases ab with
      | true => exact hv'
      | false => exact fvWalkList_mem_of_acc reg rest p acc' v hv'
    · rw [if_neg hk]
      exact fvWalkList_mem_of_acc reg rest p acc v hv
end

mutual
/-- The walk preserves uniqueness of recorded root paths. -/
theorem fvWalk_nodup (reg : List (String × List String)) :
    ∀ (t : FsTree) (p : List String) (acc : List Vrec),
      (acc.map Vrec.path).Nodup → ((fvWalk reg t p acc).1.map Vrec.path).Nodup
  | .node nm subs mfs, p, acc => by
    intro hnd
    rw [fvWalk]
    by_cases hm : subs.any (fun d => d.nameOf = ".obsidian")
    · rw [if_pos hm]
      by_cases hd : acc.any (fun v => v.path = p)
      · rw [if_pos hd]; exact hnd
      · rw [if_neg hd]
        have hp : p ∉ acc.map Vrec.path := by
          intro hmem
          rcases List.mem_map.mp hmem with ⟨w, hw, hwp⟩
          have : acc.any (fun v => v.path = p) = true :=
            List.any_eq_true.mpr ⟨w, hw, by simp [hwp]⟩
          exact hd this
        have : (acc ++ [mkVrec reg (.node nm subs mfs) p]).map Vrec.path
            = acc.map Vrec.path ++ [p] := by simp [mkVrec]
        rw [this, List.nodup_append]
        refine ⟨hnd, List.nodup_singleton p, ?_⟩
        intro x hx hx'
        rcases List.mem_singleton.mp hx' with rfl
        exact hp hx
    · rw [if_neg hm]
      exact fvWalkList_nodup reg subs p acc hnd

theorem fvWalkList_nodup (reg : List (String × List String)) :
    ∀ (ts : List FsTree) (p : List String) (acc : List Vrec),
      (acc.map Vrec.path).Nodup → ((fvWalkList reg ts p acc).1.map Vrec.path).Nodup
  | [], p, acc => by
    intro hnd
    rw [fvWalkList]
    exact hnd
  | t :: rest, p, acc => by
    intro hnd
    rw [fvWalkList]
    by_cases hk : keepDir t.nameOf
    · rw [if_pos hk]
      rcases hw : fvWalk reg t (p ++ [t.nameOf]) acc with ⟨acc', ab⟩
      have hnd' : (acc'.map Vrec.path).Nodup := by
        have := fvWalk_nodup reg t (p ++ [t.nameOf]) acc hnd
        rwa [hw] at this
      cases ab with
      | true => exact hnd'
      | false => exact fvWalkList_nodup reg rest p acc' hnd'
    · rw [if_neg hk]
      exact fvWalkList_nodup reg rest p acc hnd
end

theorem fvStep_nodup (fs : FsTree) (reg : List (String × List String))
    (acc : List Vrec) (sp : List String) (h : (acc.map Vrec.path).Nodup) :
    ((fvStep fs reg acc sp).map Vrec.path).Nodup := by
  rw [fvStep]
  rcases resolve sp fs with _ | t
  · exact h
  · exact fvWalk_nodup reg t sp acc h

theorem fvStep_mem (fs : FsTree) (reg : List (String × List String))
    (acc : List Vrec) (sp : List String) :
    ∀ v ∈ fvStep fs reg acc sp,
      v ∈ acc ∨ ∃ q, v.path = sp ++ q ∧ ∀ c ∈ q, keepDir c = true := by
  intro v hv
  rw [fvStep] at hv
  cases hres : resolve sp fs with
  | none => rw [hres] at hv; exact Or.inl hv
  | some t => rw [hres] at hv; exact fvWalk_mem reg t sp acc v hv

theorem foldl_fvStep_nodup (fs : FsTree) (reg : List (String × List String)) :
    ∀ (sps : List (List String)) (acc : List Vrec),
      (acc.map Vrec.path).Nodup →
      ((sps.foldl (fvStep fs reg) acc).map Vrec.path).Nodup
  | [], acc => fun h => h
  | sp :: rest, acc => fun h => by
    rw [List.foldl_cons]
    exact foldl_fvStep_nodup fs reg rest _ (fvStep_nodup fs reg acc sp h)

theorem foldl_fvStep_mem (fs : FsTree) (reg : List (String × List String)) :
    ∀ (sps : List (List String)) (acc : List Vrec),
      ∀ v ∈ sps.foldl (fvStep fs reg) acc,
        v ∈ acc ∨ ∃ sp ∈ sps, ∃ q, v.path = sp ++ q ∧ ∀ c ∈ q, keepDir c = true
  | [], acc => fun v hv => Or.inl hv
  | sp :: rest, acc => fun v hv => by
    rw [List.foldl_cons] at hv
    rcases foldl_fvStep_mem fs reg rest (fvStep fs reg acc sp) v hv with h | ⟨sp', hsp', hq⟩
    · rcases fvStep_mem fs reg acc sp v h with h' | hq
      · exact Or.inl h'
      · exact Or.inr ⟨sp, List.mem_cons_self sp rest, hq⟩
    · exact Or.inr ⟨sp', List.mem_cons_of_mem sp hsp', hq⟩

/-! ### Claims C7 and C10 -/

/-- A tree where the vault root `P/V` is reachable from the two distinct
search roots `["P"]` and `["P", "V"]` itself. -/
def fsC7 : FsTree :=
  .node "" [.node "P" [.node "V" [.node ".obsidian" [] []] []] []] []

/-- Claim C7: in the result of `find_vaults`, root paths are unique — for any
filesystem, any list of search roots and any registry, the returned `path`s
are pairwise distinct — and, concretely, a vault root reachable from two
distinct search roots (`["P"]` and `["P", "V"]`, both reaching `P/V`) is
returned exactly once. -/
theorem C7_root_paths_unique :
    (∀ (fs : FsTree) (searchPaths : List (List String))
        (reg : List (String × List String)),
        ((find_vaults fs searchPaths reg).map Vrec.path).Nodup)
    ∧ (find_vaults fsC7 [["P"], ["P", "V"]] []).map Vrec.path = [["P", "V"]] := by
  constructor
  · intro fs searchPaths reg
    rw [find_vaults]
    exact foldl_fvStep_nodup fs reg searchPaths [] (by simp)
  · decide

/-- Claim C10: every vault record returned by `find_vaults` sits at
`searchRoot ++ q` for one of the search roots, where no component of `q` is
hidden (starts with `'.'`) or deny-listed — so a vault root lying strictly
below a hidden or deny-listed directory inside a search root's tree is never
returned: such directories are pruned before the vault-detection check. -/
theorem C10_pruning_invariant :
    ∀ (fs : FsTree) (searchPaths : List (List String))
      (reg : List (String × List String)) (v : Vrec),
      v ∈ find_vaults fs searchPaths reg →
      ∃ sp ∈ searchPaths, ∃ q, v.path = sp ++ q ∧
        ∀ c ∈ q, startsDot c = false ∧ c ∉ deny_list := by
  intro fs searchPaths reg v hv
  rw [find_vaults] at hv
  rcases foldl_fvStep_mem fs reg searchPaths [] v hv with h | ⟨sp, hsp, q, hq, hcl⟩
  · simp at h
  · refine ⟨sp, hsp, q, hq, ?_⟩
    intro c hc
    have hk := hcl c hc
    rw [keepDir, Bool.and_eq_true, Bool.not_eq_true', Bool.not_eq_true'] at hk
    refine ⟨hk.1, ?_⟩
    intro hmem
    have : deny_list.contains c = true := List.elem_eq_true_of_mem hmem
    rw [this] at hk
    exact Bool.noConfusion hk.2

/-- Witness for C10: the vault discovered at `["P", "V"]` from search root
`["P"]` decomposes as required. -/
theorem C10_pruning_invariant_witness :
    ∃ sp ∈ ([["P"]] : List (List String)), ∃ q,
      (mkVrec [] (FsTree.node "V" [FsTree.node ".obsidian" [] []] []) ["P", "V"]).path
        = sp ++ q ∧ ∀ c ∈ q, startsDot c = false ∧ c ∉ deny_list :=
  C10_pruning_invariant fsC7 [["P"]] []
    (mkVrec [] (FsTree.node "V" [FsTree.node ".obsidian" [] []] []) ["P", "V"])
    (by decide)

/-! ### Plugin state and vault cache (main.py lines 15-24, 163-167, 620-624) -/

/-- The cache-relevant plugin state: `self.vaults`, `self.vaults_cache`,
`self.cache_timestamp`, `self.cache_duration`. -/
structure PluginState where
  vaults : List Vrec
  vaults_cache : List (List String × Vrec)
  cache_timestamp : Int
  cache_duration : Int
deriving DecidableEq

/-- `ObsidianPlugin.__init__` (lines 16-24): line 18 runs `find_vaults`,
which internally sets `vaults_cache` and `cache_timestamp := now` (lines
163-165); lines 19-20 then overwrite those two fields with `{}` and `0`,
discarding the timestamp of the initial scan. -/
def init_plugin (fs : FsTree) (searchPaths : List (List String))
    (reg : List (String × List String)) (t0 : Int) : PluginState :=
  let v := find_vaults fs searchPaths reg
  let s18 : PluginState :=
    { vaults := v
      vaults_cache := v.map (fun vr => (vr.path, vr))
      cache_timestamp := t0
      cache_duration := 300 }
  { s18 with vaults_cache := [], cache_timestamp := 0 }

/-- `refresh_vaults_cache` (lines 620-624): rescan iff
`now - cache_timestamp > cache_duration`; the rescan itself refreshes
`vaults_cache` and sets `cache_timestamp := now` (lines 163-165). -/
def refresh_vaults_cache (fs : FsTree) (searchPaths : List (List String))
    (reg : List (String × List String)) (t : Int) (s : PluginState) : PluginState :=
  if t - s.cache_timestamp > s.cache_duration then
    let v := find_vaults fs searchPaths reg
    { s with vaults := v
             vaults_cache := v.map (fun vr => (vr.path, vr))
             cache_timestamp := t }
  else s

/-- Within the TTL, a refresh is the identity. -/
theorem refresh_noop (fs : FsTree) (searchPaths : List (List String))
    (reg : List (String × List String)) (t : Int) (s : PluginState)
    (h : t - s.cache_timestamp ≤ s.cache_duration) :
    refresh_vaults_cache fs searchPaths reg t s = s := by
  rw [refresh_vaults_cache, if_neg (by omega)]

/-- Past the TTL, a refresh rescans, replaces the entries and resets the
timestamp to now. -/
theorem refresh_rescan (fs : FsTree) (searchPaths : List (List String))
    (reg : List (String × List String)) (t : Int) (s : PluginState)
    (h : t - s.cache_timestamp > s.cache_duration) :
    refresh_vaults_cache fs searchPaths reg t s
      = { s with vaults := find_vaults fs searchPaths reg
                 vaults_cache := (find_vaults fs searchPaths reg).map
                   (fun vr => (vr.path, vr))
                 cache_timestamp := t } := by
  rw [refresh_vaults_cache, if_pos (by omega)]

/-! ### Claim C5 -/

/-- An empty search-root tree and the same tree after a vault appears. -/
def fsC5a : FsTree := .node "" [.node "R" [] []] []

def fsC5b : FsTree :=
  .node "" [.node "R" [.node "V" [.node ".obsidian" [] []] []] []] []

/-- Claim C5, refuted at a concrete input: the constructor scans at time 350
(populating the cache on the first discovery call), yet a refresh at time 400
— within the 300-second TTL of that scan — rescans and returns the changed
filesystem's vaults instead of the memoized set, because `__init__` resets
`cache_timestamp` to 0 after the initial scan. -/
theorem C5_counterexample :
    ((400 : Int) - 350 ≤ 300)
    ∧ (init_plugin fsC5a [["R"]] [] 350).vaults = []
    ∧ (refresh_vaults_cache fsC5b [["R"]] [] 400
        (init_plugin fsC5a [["R"]] [] 350)).vaults.map Vrec.path = [["R", "V"]]
    ∧ (refresh_vaults_cache fsC5b [["R"]] [] 400
        (init_plugin fsC5a [["R"]] [] 350)).vaults
        ≠ (init_plugin fsC5a [["R"]] [] 350).vaults := by
  exact ⟨by decide, by decide, by decide, by decide⟩

/-- Claim C5 as amended: `refresh_vaults_cache` leaves the state unchanged
(returning the cached entries without rescanning) iff
`now - cache_timestamp ≤ ttl`, and otherwise rescans, replaces the entries
and resets the timestamp to `now`; the constructor's initial scan does NOT
count as setting the timestamp — `__init__` resets it to 0 — but a scan
triggered by a refresh does, so any further refresh within the TTL of a
refresh-triggered scan returns the memoized state unchanged even if the
filesystem changed. -/
theorem C5_cache_ttl_amended :
    ∀ (fs : FsTree) (searchPaths : List (List String))
      (reg : List (String × List String)) (t : Int) (s : PluginState),
      (t - s.cache_timestamp ≤ s.cache_duration →
        refresh_vaults_cache fs searchPaths reg t s = s)
      ∧ (t - s.cache_timestamp > s.cache_duration →
          (refresh_vaults_cache fs searchPaths reg t s).vaults
              = find_vaults fs searchPaths reg
          ∧ (refresh_vaults_cache fs searchPaths reg t s).cache_timestamp = t)
      ∧ (init_plugin fs searchPaths reg t).cache_timestamp = 0
      ∧ (init_plugin fs searchPaths reg t).vaults = find_vaults fs searchPaths reg
      ∧ (t - s.cache_timestamp > s.cache_duration →
          ∀ (fs2 : FsTree) (sp2 : List (List String))
            (reg2 : List (String × List String)) (t2 : Int),
            t2 - t ≤ s.cache_duration →
            refresh_vaults_cache fs2 sp2 reg2 t2
                (refresh_vaults_cache fs searchPaths reg t s)
              = refresh_vaults_cache fs searchPaths reg t s) := by
  intro fs searchPaths reg t s
  refine ⟨refresh_noop fs searchPaths reg t s, ?_, rfl, rfl, ?_⟩
  · intro h
    rw [refresh_rescan fs searchPaths reg t s h]
    exact ⟨rfl, rfl⟩
  · intro h fs2 sp2 reg2 t2 h2
    rw [refresh_rescan fs searchPaths reg t s h]
    exact refresh_noop fs2 sp2 reg2 t2 _ (by simpa using h2)

/-- Witness for the amended C5: after the refresh-triggered rescan at time
400, a second refresh at time 500 — even against a filesystem that changed
back — returns the state unchanged. -/
theorem C5_cache_ttl_amended_witness :
    refresh_vaults_cache fsC5a [["R"]] [] 500
        (refresh_vaults_cache fsC5b [["R"]] [] 400 (init_plugin fsC5a [["R"]] [] 350))
      = refresh_vaults_cache fsC5b [["R"]] [] 400 (init_plugin fsC5a [["R"]] [] 350) :=
  (C5_cache_ttl_amended fsC5b [["R"]] [] 400
      (init_plugin fsC5a [["R"]] [] 350)).2.2.2.2
    (by decide) fsC5a [["R"]] [] 500 (by decide)

/-! ### Claim C4 -/

/-- With `os.makedirs` succeeding, `create_daily_note` is exactly the
delegation to `create_daily_note_with_template` with the resolved title and
folder. -/
theorem create_daily_note_of_mkdirOk (clock : Clock) (windows ioOk : Bool)
    (fs : List (List String × String)) (vault : List String)
    (cfg : Option DailyCfg) (titleOpt : Option String) :
    create_daily_note clock windows true ioOk fs vault cfg titleOpt
      = Except.ok (create_daily_note_with_template clock ioOk fs vault
          (vault ++ daily_folder cfg)
          (match titleOpt with
           | some t => if t = "" then daily_title clock windows cfg else t
           | none => daily_title clock windows cfg) cfg) := rfl

/-- Claim C4: creation is idempotent.  If the target file already exists,
`create_daily_note_with_template` returns its path and vault-relative path
with the store untouched; any second call with the same arguments after a
successful call returns the same pair and leaves the store byte-identical;
and the same repeat-call property holds for the full `create_daily_note`
entry point with its implicit (date-derived) title. -/
theorem C4_daily_note_idempotent :
    ∀ (clock : Clock) (windows ioOk : Bool) (fs : List (List String × String))
      (vault daily : List String) (title : String) (cfg : Option DailyCfg)
      (titleOpt : Option String),
      ((fsGet fs (daily ++ [title ++ ".md"])).isSome →
        create_daily_note_with_template clock ioOk fs vault daily title cfg
          = (fs, some (daily ++ [title ++ ".md"],
              relPathFrom vault (daily ++ [title ++ ".md"]))))
      ∧ (∀ fs1 pr,
          create_daily_note_with_template clock ioOk fs vault daily title cfg
            = (fs1, some pr) →
          create_daily_note_with_template clock ioOk fs1 vault daily title cfg
            = (fs1, some pr))
      ∧ (∀ fs1 pr,
          create_daily_note clock windows true ioOk fs vault cfg titleOpt
            = Except.ok (fs1, some pr) →
          create_daily_note clock windows true ioOk fs1 vault cfg titleOpt
            = Except.ok (fs1, some pr)) := by
  intro clock windows ioOk fs vault daily title cfg titleOpt
  have base : ∀ (daily2 : List String) (title2 : String)
      (fs0 fs1 : List (List String × String)) (pr : List String × List String),
      create_daily_note_with_template clock ioOk fs0 vault daily2 title2 cfg
        = (fs1, some pr) →
      create_daily_note_with_template clock ioOk fs1 vault daily2 title2 cfg
        = (fs1, some pr) := by
    intro daily2 title2 fs0 fs1 pr h
    rw [create_daily_note_with_template.eq_def] at h
    by_cases hex : (fsGet fs0 (daily2 ++ [title2 ++ ".md"])).isSome
    · rw [if_pos hex] at h
      injection h with h1 h2
      injection h2 with h3
      subst h1
      rw [create_daily_note_with_template.eq_def, if_pos hex, h3]
    · rw [if_neg hex] at h
      cases ioOk with
      | false => simp at h
      | true =>
        rw [if_neg (by simp)] at h
        injection h with h1 h2
        injection h2 with h3
        rw [create_daily_note_with_template.eq_def,
          if_pos (by rw [← h1]; simp [fsGet, fsSet]), h3]
  refine ⟨?_, fun fs1 pr h => base daily title fs fs1 pr h, ?_⟩
  · intro h
    rw [create_daily_note_with_template.eq_def]
    simp only [h, if_true]
  · intro fs1 pr h
    rw [create_daily_note_of_mkdirOk] at h ⊢
    injection h with h0
    exact congrArg Except.ok (base _ _ fs fs1 pr h0)

/-- Witness for C4: with the target already present the call returns the
existing path without writing; a second call right after a successful
creating call returns the same pair and leaves the store untouched; and the
same holds through the `create_daily_note` entry point. -/
theorem C4_daily_note_idempotent_witness :
    ((fsGet [(["v", "Daily", "t.md"], "old")] (["v", "Daily"] ++ ["t" ++ ".md"])).isSome
      ∧ create_daily_note_with_template ⟨fun _ => "X"⟩ true
          [(["v", "Daily", "t.md"], "old")] ["v"] ["v", "Daily"] "t" none
        = ([(["v", "Daily", "t.md"], "old")],
           some (["v", "Daily"] ++ ["t" ++ ".md"],
             relPathFrom ["v"] (["v", "Daily"] ++ ["t" ++ ".md"]))))
    ∧ create_daily_note_with_template ⟨fun _ => "X"⟩ true
        [(["v", "Daily", "t.md"], "# t\n\nDate: X\n\n## Notes\n\n- \n\n")]
        ["v"] ["v", "Daily"] "t" none
      = ([(["v", "Daily", "t.md"], "# t\n\nDate: X\n\n## Notes\n\n- \n\n")],
         some (["v", "Daily", "t.md"], ["Daily", "t.md"]))
    ∧ create_daily_note ⟨fun _ => "X"⟩ false true true
        [(["v", "Daily", "t.md"], "# t\n\nDate: X\n\n## Notes\n\n- \n\n")]
        ["v"] none (some "t")
      = Except.ok ([(["v", "Daily", "t.md"], "# t\n\nDate: X\n\n## Notes\n\n- \n\n")],
          some (["v", "Daily", "t.md"], ["Daily", "t.md"])) :=
  ⟨⟨by decide,
    (C4_daily_note_idempotent ⟨fun _ => "X"⟩ false true
        [(["v", "Daily", "t.md"], "old")]
        ["v"] ["v", "Daily"] "t" none none).1 (by decide)⟩,
   (C4_daily_note_idempotent ⟨fun _ => "X"⟩ false true [] ["v"] ["v", "Daily"]
       "t" none none).2.1
     [(["v", "Daily", "t.md"], "# t\n\nDate: X\n\n## Notes\n\n- \n\n")]
     (["v", "Daily", "t.md"], ["Daily", "t.md"]) (by decide),
   (C4_daily_note_idempotent ⟨fun _ => "X"⟩ false true [] ["v"] ["v", "Daily"]
       "t" none (some "t")).2.2
     [(["v", "Daily", "t.md"], "# t\n\nDate: X\n\n## Notes\n\n- \n\n")]
     (["v", "Daily", "t.md"], ["Daily", "t.md"]) rfl⟩

/-! ### Claim C6 -/

/-- Claim C6, refuted at a concrete input: when `os.makedirs` fails
(`mkdirOk = false`), `create_daily_note` raises — the outcome is
`Except.error ()`, never the `(None, None)` failure value the claim
requires for every I/O failure. -/
theorem C6_counterexample :
    create_daily_note ⟨fun _ => "X"⟩ false false true [] ["v"] none (some "t")
      = Except.error ()
    ∧ ∀ out, create_daily_note ⟨fun _ => "X"⟩ false false true [] ["v"] none (some "t")
        ≠ Except.ok out := by
  have h : create_daily_note ⟨fun _ => "X"⟩ false false true [] ["v"] none (some "t")
      = Except.error () := rfl
  exact ⟨h, fun out hok => by rw [h] at hok; exact Except.noConfusion hok⟩

/-- Claim C6 as amended: failures of the template read or the file write
(inside the `try` of `create_daily_note_with_template`) are reported as the
`(None, None)` failure outcome with the store unchanged, and whenever
`os.makedirs` succeeds, `create_daily_note` returns a defined (non-raised)
outcome; but a failure of the recursive folder-creation step itself
propagates as a raised exception out of `create_daily_note` (it is caught
only by the top-level dispatch handler), not as the `(None, None)` result. -/
theorem C6_io_failure_amended :
    ∀ (clock : Clock) (windows : Bool) (fs : List (List String × String))
      (vault : List String) (cfg : Option DailyCfg) (titleOpt : Option String),
      (∀ ioOk, ∃ out,
        create_daily_note clock windows true ioOk fs vault cfg titleOpt
          = Except.ok out)
      ∧ (∀ ioOk,
          create_daily_note clock windows false ioOk fs vault cfg titleOpt
            = Except.error ())
      ∧ (∀ (vault2 daily : List String) (title : String) (cfg2 : Option DailyCfg),
          fsGet fs (daily ++ [title ++ ".md"]) = none →
          create_daily_note_with_template clock false fs vault2 daily title cfg2
            = (fs, none)) := by
  intro clock windows fs vault cfg titleOpt
  refine ⟨fun ioOk => ⟨_, rfl⟩, fun ioOk => rfl, ?_⟩
  intro vault2 daily title cfg2 h
  rw [create_daily_note_with_template.eq_def, if_neg (by simp [h])]
  simp

/-- Witness for the amended C6: a write failure on an absent target is the
`(None, None)` outcome with the store unchanged. -/
theorem C6_io_failure_amended_witness :
    create_daily_note_with_template ⟨fun _ => "X"⟩ false [] ["v"] ["v", "D"] "t" none
      = ([], none) :=
  (C6_io_failure_amended ⟨fun _ => "X"⟩ false [] ["v"] none (some "t")).2.2
    ["v"] ["v", "D"] "t" none (by decide)

/-! ### Claim C9 -/

theorem findFreePath_free (fs : List (List String × String)) (vault : List String)
    (filename : String) :
    ∀ (fuel : Nat) (cur : List String) (counter : Nat) (p : List String),
      findFreePath fs vault filename fuel cur counter = some p → fsGet fs p = none
  | 0, cur, counter, p => by
    intro h
    rw [findFreePath] at h
    exact Option.noConfusion h
  | fuel + 1, cur, counter, p => by
    intro h
    rw [findFreePath] at h
    by_cases hc : (fsGet fs cur).isSome
    · rw [if_pos hc] at h
      exact findFreePath_free fs vault filename fuel _ _ p h
    · rw [if_neg hc] at h
      rcases Option.some.injEq .. ▸ h with rfl
      exact Option.not_isSome_iff_eq_none.mp hc

theorem fsGet_fsSet_of_ne (fs : List (List String × String))
    (p q : List String) (c : String) (h : p ≠ q) :
    fsGet (fsSet fs p c) q = fsGet fs q := by
  rw [fsSet, fsGet, if_neg h]

/-- Claim C9: `create_new_note` never overwrites — every file present before
the call has the same content after it, and whenever a note is written, its
path was free before the call (the probing loop returns a non-existent
name). -/
theorem C9_create_new_note_fresh :
    ∀ (clock : Clock) (ioOk : Bool) (fs : List (List String × String))
      (vault : List String) (title : String),
      (∀ p, (fsGet fs p).isSome →
        fsGet (create_new_note clock ioOk fs vault title).1 p = fsGet fs p)
      ∧ (∀ full rel,
          (create_new_note clock ioOk fs vault title).2 = some (full, rel) →
          fsGet fs full = none) := by
  intro clock ioOk fs vault title
  rw [create_new_note]
  cases hp : findFreePath fs vault (sanitize_filename title) (fs.length + 1)
      (vault ++ [sanitize_filename title ++ ".md"]) 1 with
  | none => exact ⟨fun p _ => rfl, fun full rel h => Option.noConfusion h⟩
  | some freePath =>
    have hfree : fsGet fs freePath = none :=
      findFreePath_free fs vault (sanitize_filename title) _ _ _ freePath hp
    cases ioOk with
    | false => exact ⟨fun p _ => rfl, fun full rel h => Option.noConfusion h⟩
    | true =>
      refine ⟨fun p hsome => ?_, fun full rel h => ?_⟩
      · refine fsGet_fsSet_of_ne fs freePath p _ ?_
        intro heq
        rw [heq] at hfree
        rw [hfree] at hsome
        exact Bool.noConfusion hsome
      · simp only [Option.some.injEq, Prod.mk.injEq] at h
        rcases h with ⟨rfl, -⟩
        exact hfree

/-- Witness for C9: with `t.md` and `t 1.md` occupied, the note is created at
the fresh `t 2.md` and the occupied files keep their contents. -/
theorem C9_create_new_note_fresh_witness :
    ((create_new_note ⟨fun _ => "X"⟩ true
        [(["v", "t.md"], "x"), (["v", "t 1.md"], "y")] ["v"] "t").2
      = some (["v", "t 2.md"], ["t 2.md"]))
    ∧ fsGet [(["v", "t.md"], "x"), (["v", "t 1.md"], "y")] ["v", "t 2.md"] = none
    ∧ fsGet (create_new_note ⟨fun _ => "X"⟩ true
        [(["v", "t.md"], "x"), (["v", "t 1.md"], "y")] ["v"] "t").1 ["v", "t.md"]
      = some "x" :=
  ⟨by decide,
   (C9_create_new_note_fresh ⟨fun _ => "X"⟩ true
       [(["v", "t.md"], "x"), (["v", "t 1.md"], "y")] ["v"] "t").2
     ["v", "t 2.md"] ["t 2.md"] (by decide),
   ((C9_create_new_note_fresh ⟨fun _ => "X"⟩ true
       [(["v", "t.md"], "x"), (["v", "t 1.md"], "y")] ["v"] "t").1
     ["v", "t.md"] (by decide)).trans (by decide)⟩
